import Mathlib

/-!
Shallow embedding of the webcomic reader `src/assets/js/app.js`.

Modelling conventions used throughout this development:
* JavaScript primitive values that may occur as an entry `id` are modelled by
  the inductive type `JSValue` (strings, integer-valued numbers, booleans,
  `null`, `undefined`).  JavaScript numbers are IEEE doubles; the claims only
  exercise integer values, so numbers are modelled exactly as `Int`, and
  `parseInt` of a digit run is modelled exactly over `Nat` (the double
  rounding/overflow of runs longer than ~308 digits is idealised away).
* `String.prototype.localeCompare(_, undefined, [numeric: true])` is a host
  (ICU) API, not code of this repository.  It is modelled by the documented
  behaviour of ICU numeric collation: a string is tokenised into maximal
  digit runs (compared by exact numeric value, so leading zeros are ignored
  and e.g. "02" collates equal to "2") and single non-digit characters
  (compared by code point, digits collating before non-digits).
* DOM rendering is modelled by the strings / flags the code computes;
  a thrown TypeError is modelled by `Except`.
-/

/-- A JavaScript primitive value as it may occur in the manifest (`id` field).
Numbers are modelled as exact integers. -/
inductive JSValue where
  | str (s : String)
  | num (n : Int)
  | bool (b : Bool)
  | null
  | undef
deriving DecidableEq, Repr

/-- JavaScript `String(v)` on a primitive value. -/
def jsToString : JSValue → String
  | .str s => s
  | .num n => toString n
  | .bool b => if b then "true" else "false"
  | .null => "null"
  | .undef => "undefined"

/-- JavaScript truthiness of a primitive value (`NaN` does not arise in the
integer model). -/
def jsTruthy : JSValue → Bool
  | .str s => s ≠ ""
  | .num n => n ≠ 0
  | .bool b => b
  | .null => false
  | .undef => false

/-- JavaScript `String(v ?? '')`: nullish coalescing to the empty string,
then coercion to string; this is how `idToNumber` and `byIdAscending`
read an `id`. -/
def idString (v : JSValue) : String :=
  match v with
  | .null => ""
  | .undef => ""
  | v => jsToString v

/-- Maximal leading run of decimal digits. -/
def takeDigits : List Char → List Char
  | [] => []
  | c :: cs => if c.isDigit then c :: takeDigits cs else []

/-- Remainder after the maximal leading run of decimal digits. -/
def dropDigits : List Char → List Char
  | [] => []
  | c :: cs => if c.isDigit then dropDigits cs else c :: cs

/-- First contiguous digit run of a character list (the JS regex
`/\d+/.exec`), if any. -/
def firstDigitRun : List Char → Option (List Char)
  | [] => none
  | c :: cs => if c.isDigit then some (c :: takeDigits cs) else firstDigitRun cs

/-- Numeric value of a digit run (big-endian decimal), as `parseInt(run, 10)`
computes it, idealised to exact `Nat` arithmetic. -/
def digitsVal (l : List Char) : Nat :=
  l.foldl (fun acc c => 10 * acc + (c.toNat - 48)) 0

/-- `idToNumber` from app.js: the numeric value of the first digit run of
`String(id ?? '')`, or `NaN` (modelled as `none`) when there is none. -/
def idToNumber (id : JSValue) : Option Nat :=
  (firstDigitRun (idString id).data).map digitsVal

/-- A collation segment of ICU numeric collation: a maximal digit run taken
by exact numeric value, or a single non-digit character. -/
inductive Seg where
  | num (n : Nat)
  | chr (c : Char)
deriving DecidableEq, Repr

/-- Three-way comparison on naturals, written out explicitly. -/
def cmpNat (a b : Nat) : Ordering :=
  if a < b then .lt else if b < a then .gt else .eq

/-- Comparison of collation segments: digit runs by exact value, digit runs
before other characters, other characters by code point. -/
def cmpSeg : Seg → Seg → Ordering
  | .num a, .num b => cmpNat a b
  | .num _, .chr _ => .lt
  | .chr _, .num _ => .gt
  | .chr a, .chr b => cmpNat a.toNat b.toNat

/-- Tokenisation of a string into collation segments, carrying the value of
the digit run currently being read (`none` when not inside a run). -/
def segsAux : Option Nat → List Char → List Seg
  | acc, [] => match acc with | some n => [Seg.num n] | none => []
  | acc, c :: cs =>
    if c.isDigit then segsAux (some (acc.getD 0 * 10 + (c.toNat - 48))) cs
    else
      match acc with
      | some n => Seg.num n :: Seg.chr c :: segsAux none cs
      | none => Seg.chr c :: segsAux none cs

/-- Tokenisation of a string into collation segments: maximal digit runs by
value, other characters singly. -/
def segsOf (l : List Char) : List Seg := segsAux none l

/-- Lexicographic comparison of segment lists. -/
def lexSegs : List Seg → List Seg → Ordering
  | [], [] => .eq
  | [], _ :: _ => .lt
  | _ :: _, [] => .gt
  | a :: as, b :: bs =>
    match cmpSeg a b with
    | .eq => lexSegs as bs
    | o => o

/-- Model of `a.localeCompare(b, undefined, [numeric: true])` (ICU numeric
collation; see the module comment), returned as `-1`, `0` or `1` as V8 does. -/
def localeCompareNumeric (a b : String) : Int :=
  match lexSegs (segsOf a.data) (segsOf b.data) with
  | .lt => -1
  | .eq => 0
  | .gt => 1

/-- An entry of the manifest (`comics` element), as consumed by app.js.
Fields other than `id` are the string options the data model describes. -/
structure Entry where
  id : JSValue
  title : Option String := none
  date : Option String := none
  image : String := ""
  alt : Option String := none
deriving DecidableEq, Repr

/-- `byIdAscending` from app.js.  `Number.isFinite` on the parse result is
`true` exactly when a digit run exists (exact-integer idealisation), so
`aHas`/`bHas` become `Option.isSome`. -/
def byIdAscending (a b : Entry) : Int :=
  match idToNumber a.id, idToNumber b.id with
  | some na, some nb =>
      if na ≠ nb then (na : Int) - (nb : Int)
      else localeCompareNumeric (idString a.id) (idString b.id)
  | some _, none => -1
  | none, some _ => 1
  | none, none => localeCompareNumeric (idString a.id) (idString b.id)

theorem cmpNat_eq_iff (a b : Nat) : cmpNat a b = .eq ↔ a = b := by
  unfold cmpNat; split_ifs <;> simp <;> omega

theorem cmpNat_lt_iff (a b : Nat) : cmpNat a b = .lt ↔ a < b := by
  unfold cmpNat; split_ifs <;> simp <;> omega

theorem cmpNat_gt_iff (a b : Nat) : cmpNat a b = .gt ↔ b < a := by
  unfold cmpNat; split_ifs <;> simp <;> omega

theorem cmpNat_swap (a b : Nat) : (cmpNat a b).swap = cmpNat b a := by
  unfold cmpNat; split_ifs <;> first | rfl | omega

theorem cmpSeg_swap (a b : Seg) : (cmpSeg a b).swap = cmpSeg b a := by
  cases a <;> cases b <;> first
    | exact cmpNat_swap _ _
    | rfl

theorem cmpSeg_le_trans (a b c : Seg) (hab : cmpSeg a b ≠ .gt) (hbc : cmpSeg b c ≠ .gt) :
    cmpSeg a c ≠ .gt ∧ (cmpSeg a c = .eq → cmpSeg a b = .eq ∧ cmpSeg b c = .eq) := by
  cases a <;> cases b <;> cases c <;>
    simp_all [cmpSeg, cmpNat_gt_iff, cmpNat_eq_iff] <;> omega

theorem lexSegs_swap : ∀ x y : List Seg, (lexSegs x y).swap = lexSegs y x
  | [], [] => rfl
  | [], _ :: _ => rfl
  | _ :: _, [] => rfl
  | a :: as, b :: bs => by
    have hs := cmpSeg_swap a b
    cases h : cmpSeg a b with
    | lt =>
      have hba : cmpSeg b a = .gt := by rw [← hs, h]; rfl
      simp [lexSegs, h, hba]; rfl
    | gt =>
      have hba : cmpSeg b a = .lt := by rw [← hs, h]; rfl
      simp [lexSegs, h, hba]; rfl
    | eq =>
      have hba : cmpSeg b a = .eq := by rw [← hs, h]; rfl
      simp only [lexSegs, h, hba]
      exact lexSegs_swap as bs

theorem lexSegs_le_trans : ∀ x y z : List Seg,
    lexSegs x y ≠ .gt → lexSegs y z ≠ .gt →
    lexSegs x z ≠ .gt ∧ (lexSegs x z = .eq → lexSegs x y = .eq ∧ lexSegs y z = .eq)
  | [], y, z, hab, hbc => by
    cases y with
    | nil =>
      cases z with
      | nil => simp [lexSegs]
      | cons b bs => simp [lexSegs]
    | cons a as =>
      cases z with
      | nil => simp [lexSegs] at hbc
      | cons b bs => simp [lexSegs]
  | x :: xs, y, z, hab, hbc => by
    cases y with
    | nil => simp [lexSegs] at hab
    | cons b bs =>
      cases z with
      | nil => simp [lexSegs] at hbc
      | cons c cs =>
        cases h1 : cmpSeg x b with
        | gt => simp [lexSegs, h1] at hab
        | lt =>
          cases h2 : cmpSeg b c with
          | gt => simp [lexSegs, h2] at hbc
          | lt =>
            have haux := cmpSeg_le_trans x b c (by simp [h1]) (by simp [h2])
            cases h3 : cmpSeg x c with
            | gt => exact absurd h3 haux.1
            | eq => rw [h1] at haux; simp [h3] at haux
            | lt => simp [lexSegs, h3]
          | eq =>
            have haux := cmpSeg_le_trans x b c (by simp [h1]) (by simp [h2])
            cases h3 : cmpSeg x c with
            | gt => exact absurd h3 haux.1
            | eq => rw [h1] at haux; simp [h3] at haux
            | lt => simp [lexSegs, h3]
        | eq =>
          cases h2 : cmpSeg b c with
          | gt => simp [lexSegs, h2] at hbc
          | lt =>
            have haux := cmpSeg_le_trans x b c (by simp [h1]) (by simp [h2])
            cases h3 : cmpSeg x c with
            | gt => exact absurd h3 haux.1
            | eq => rw [h2] at haux; simp [h3] at haux
            | lt => simp [lexSegs, h3]
          | eq =>
            have haux := cmpSeg_le_trans x b c (by simp [h1]) (by simp [h2])
            rw [lexSegs, h1] at hab
            rw [lexSegs, h2] at hbc
            have hih := lexSegs_le_trans xs bs cs hab hbc
            cases h3 : cmpSeg x c with
            | gt => exact absurd h3 haux.1
            | lt => simp [lexSegs, h3]
            | eq =>
              refine ⟨by simpa [lexSegs, h3] using hih.1, ?_⟩
              intro he
              rw [lexSegs, h3] at he
              exact ⟨by rw [lexSegs, h1]; exact (hih.2 he).1,
                     by rw [lexSegs, h2]; exact (hih.2 he).2⟩

theorem cmpNat_self (a : Nat) : cmpNat a a = .eq := by
  unfold cmpNat; split_ifs <;> first | rfl | omega

theorem lexSegs_self : ∀ x : List Seg, lexSegs x x = .eq
  | [] => rfl
  | a :: as => by
    have : cmpSeg a a = .eq := by cases a <;> simp [cmpSeg, cmpNat_self]
    simp [lexSegs, this, lexSegs_self as]

theorem localeCompareNumeric_swap (a b : String) :
    localeCompareNumeric b a = - localeCompareNumeric a b := by
  unfold localeCompareNumeric
  have h := lexSegs_swap (segsOf a.data) (segsOf b.data)
  cases hx : lexSegs (segsOf a.data) (segsOf b.data) with
  | lt =>
    have hba : lexSegs (segsOf b.data) (segsOf a.data) = .gt := by rw [← h, hx]; rfl
    rw [hba]; decide
  | eq =>
    have hba : lexSegs (segsOf b.data) (segsOf a.data) = .eq := by rw [← h, hx]; rfl
    rw [hba]; decide
  | gt =>
    have hba : lexSegs (segsOf b.data) (segsOf a.data) = .lt := by rw [← h, hx]; rfl
    rw [hba]

theorem localeCompareNumeric_le_trans (a b c : String)
    (hab : localeCompareNumeric a b ≤ 0) (hbc : localeCompareNumeric b c ≤ 0) :
    localeCompareNumeric a c ≤ 0 := by
  unfold localeCompareNumeric at *
  have h1 : lexSegs (segsOf a.data) (segsOf b.data) ≠ .gt := by
    intro h; rw [h] at hab; exact absurd hab (by decide)
  have h2 : lexSegs (segsOf b.data) (segsOf c.data) ≠ .gt := by
    intro h; rw [h] at hbc; exact absurd hbc (by decide)
  have h3 := (lexSegs_le_trans _ _ _ h1 h2).1
  cases hx : lexSegs (segsOf a.data) (segsOf c.data) with
  | lt => decide
  | eq => decide
  | gt => exact absurd hx h3

theorem localeCompareNumeric_self (a : String) : localeCompareNumeric a a = 0 := by
  unfold localeCompareNumeric
  rw [lexSegs_self]

example : byIdAscending ⟨.str "02", none, none, "", none⟩ ⟨.str "2", none, none, "", none⟩ = 0 := by decide
example : byIdAscending ⟨.str "ep10", none, none, "", none⟩ ⟨.str "ep9", none, none, "", none⟩ = 1 := by decide
example : byIdAscending ⟨.str "x", none, none, "", none⟩ ⟨.str "9", none, none, "", none⟩ = 1 := by decide
example : byIdAscending ⟨.num 3, none, none, "", none⟩ ⟨.str "10", none, none, "", none⟩ = -7 := by decide

theorem byIdAscending_ss (a b : Entry) (na nb : Nat)
    (ha : idToNumber a.id = some na) (hb : idToNumber b.id = some nb) :
    byIdAscending a b =
      if na ≠ nb then (na : Int) - (nb : Int)
      else localeCompareNumeric (idString a.id) (idString b.id) := by
  unfold byIdAscending; rw [ha, hb]

theorem byIdAscending_sn (a b : Entry) (na : Nat)
    (ha : idToNumber a.id = some na) (hb : idToNumber b.id = none) :
    byIdAscending a b = -1 := by
  unfold byIdAscending; rw [ha, hb]

theorem byIdAscending_ns (a b : Entry) (nb : Nat)
    (ha : idToNumber a.id = none) (hb : idToNumber b.id = some nb) :
    byIdAscending a b = 1 := by
  unfold byIdAscending; rw [ha, hb]

theorem byIdAscending_nn (a b : Entry)
    (ha : idToNumber a.id = none) (hb : idToNumber b.id = none) :
    byIdAscending a b = localeCompareNumeric (idString a.id) (idString b.id) := by
  unfold byIdAscending; rw [ha, hb]

theorem byIdAscending_self (a : Entry) : byIdAscending a a = 0 := by
  cases h : idToNumber a.id with
  | none => rw [byIdAscending_nn a a h h]; exact localeCompareNumeric_self _
  | some n =>
    rw [byIdAscending_ss a a n n h h]
    simp [localeCompareNumeric_self]

theorem byIdAscending_swap (a b : Entry) :
    byIdAscending b a = - byIdAscending a b := by
  cases ha : idToNumber a.id with
  | none =>
    cases hb : idToNumber b.id with
    | none =>
      rw [byIdAscending_nn b a hb ha, byIdAscending_nn a b ha hb]
      exact localeCompareNumeric_swap _ _
    | some nb => rw [byIdAscending_sn b a nb hb ha, byIdAscending_ns a b nb ha hb]
  | some na =>
    cases hb : idToNumber b.id with
    | none =>
      rw [byIdAscending_ns b a na hb ha, byIdAscending_sn a b na ha hb]
      decide
    | some nb =>
      rw [byIdAscending_ss b a nb na hb ha, byIdAscending_ss a b na nb ha hb]
      by_cases hne : na = nb
      · subst hne
        rw [if_neg (by simp), if_neg (by simp)]
        exact localeCompareNumeric_swap _ _
      · have hne2 : nb ≠ na := fun h => hne h.symm
        rw [if_pos hne2, if_pos hne]
        omega

theorem byIdAscending_le_trans (a b c : Entry)
    (hab : byIdAscending a b ≤ 0) (hbc : byIdAscending b c ≤ 0) :
    byIdAscending a c ≤ 0 := by
  cases ha : idToNumber a.id with
  | none =>
    cases hb : idToNumber b.id with
    | some nb => rw [byIdAscending_ns a b nb ha hb] at hab; omega
    | none =>
      cases hc : idToNumber c.id with
      | some nc => rw [byIdAscending_ns b c nc hb hc] at hbc; omega
      | none =>
        rw [byIdAscending_nn a b ha hb] at hab
        rw [byIdAscending_nn b c hb hc] at hbc
        rw [byIdAscending_nn a c ha hc]
        exact localeCompareNumeric_le_trans _ _ _ hab hbc
  | some na =>
    cases hc : idToNumber c.id with
    | none => rw [byIdAscending_sn a c na ha hc]; omega
    | some nc =>
      cases hb : idToNumber b.id with
      | none => rw [byIdAscending_ns b c nc hb hc] at hbc; omega
      | some nb =>
        rw [byIdAscending_ss a b na nb ha hb] at hab
        rw [byIdAscending_ss b c nb nc hb hc] at hbc
        rw [byIdAscending_ss a c na nc ha hc]
        by_cases h1 : na = nb
        · subst h1
          rw [if_neg (by simp)] at hab
          by_cases h2 : na = nc
          · subst h2
            rw [if_neg (by simp)] at hbc ⊢
            exact localeCompareNumeric_le_trans _ _ _ hab hbc
          · rw [if_pos (by simpa using h2)] at hbc ⊢
            omega
        · rw [if_pos (by simpa using h1)] at hab
          by_cases h2 : nb = nc
          · subst h2
            rw [if_pos (by simpa using h1)]
            omega
          · rw [if_pos (by simpa using h2)] at hbc
            have hlt : na < nc := by omega
            rw [if_pos (by omega)]
            omega

theorem byIdAscending_lt_trans (a b c : Entry)
    (hab : byIdAscending a b < 0) (hbc : byIdAscending b c < 0) :
    byIdAscending a c < 0 := by
  have hle : byIdAscending a c ≤ 0 :=
    byIdAscending_le_trans a b c (by omega) (by omega)
  rcases lt_or_eq_of_le hle with h | h
  · exact h
  · exfalso
    have hca : byIdAscending c a = 0 := by rw [byIdAscending_swap, ← h]; omega
    have hcb : byIdAscending c b ≤ 0 :=
      byIdAscending_le_trans c a b (by omega) (by omega)
    have hgt : byIdAscending c b > 0 := by
      rw [byIdAscending_swap]; omega
    omega

/-- Boolean "not greater" form of the comparator, as `Array.prototype.sort`
consumes it; `sort` itself is modelled by stable `List.mergeSort`. -/
def leById (a b : Entry) : Bool := decide (byIdAscending a b ≤ 0)

/-- The order `init` establishes: `[...data.comics].sort(byIdAscending)`. -/
def sortComics (l : List Entry) : List Entry := l.mergeSort leById

/-- Relation between adjacent sorted entries that C1 describes: extracted
numbers are non-decreasing, and a digit-less id is never followed by an id
with digits. -/
def keyOrdered (a b : Entry) : Prop :=
  (∀ x y : Nat, idToNumber a.id = some x → idToNumber b.id = some y → x ≤ y) ∧
  (idToNumber a.id = none → idToNumber b.id = none)

theorem leById_trans (a b c : Entry) (hab : leById a b = true) (hbc : leById b c = true) :
    leById a c = true := by
  unfold leById at *
  exact decide_eq_true
    (byIdAscending_le_trans a b c (of_decide_eq_true hab) (of_decide_eq_true hbc))

theorem leById_total (a b : Entry) : leById a b || leById b a := by
  unfold leById
  rcases le_or_lt (byIdAscending a b) 0 with h | h
  · simp [h]
  · have h2 : byIdAscending b a ≤ 0 := by rw [byIdAscending_swap]; omega
    simp [h2]

theorem byIdAscending_le_of_some_some (a b : Entry) (x y : Nat)
    (ha : idToNumber a.id = some x) (hb : idToNumber b.id = some y)
    (hle : byIdAscending a b ≤ 0) : x ≤ y := by
  rw [byIdAscending_ss a b x y ha hb] at hle
  by_cases hxy : x = y
  · omega
  · rw [if_pos (by simpa using hxy)] at hle; omega

theorem keyOrdered_of_le (a b : Entry) (h : byIdAscending a b ≤ 0) : keyOrdered a b := by
  constructor
  · intro x y hx hy
    exact byIdAscending_le_of_some_some a b x y hx hy h
  · intro ha
    cases hb : idToNumber b.id with
    | none => rfl
    | some nb =>
      rw [byIdAscending_ns a b nb ha hb] at h
      omega

/-- C1: for entries whose ids both contain a digit run, `byIdAscending`
orders strictly by the numeric value of the first run; an entry with a
digit run always compares before one without (`-1` / `1`); consequently the
sorted collection is pairwise ascending by extracted number with digit-less
ids at the end. -/
theorem byIdAscending_sort_ascending :
    (∀ (a b : Entry) (x y : Nat), idToNumber a.id = some x → idToNumber b.id = some y →
        x < y → byIdAscending a b < 0 ∧ 0 < byIdAscending b a) ∧
    (∀ (a b : Entry) (x : Nat), idToNumber a.id = some x → idToNumber b.id = none →
        byIdAscending a b = -1 ∧ byIdAscending b a = 1) ∧
    (∀ l : List Entry, (sortComics l).Pairwise keyOrdered) := by
  refine ⟨?_, ?_, ?_⟩
  · intro a b x y hx hy hlt
    constructor
    · rw [byIdAscending_ss a b x y hx hy, if_pos (by omega)]; omega
    · rw [byIdAscending_ss b a y x hy hx, if_pos (by omega)]; omega
  · intro a b x hx hb
    exact ⟨byIdAscending_sn a b x hx hb, byIdAscending_ns b a x hb hx⟩
  · intro l
    have hs := @List.sorted_mergeSort Entry leById
      (fun a b c => leById_trans a b c) (fun a b => leById_total a b) l
    exact hs.imp (fun h => keyOrdered_of_le _ _ (of_decide_eq_true h))

/-- C1 witness: concrete instances of the comparator clauses. -/
theorem byIdAscending_sort_ascending_witness :
    byIdAscending ⟨.str "3", none, none, "", none⟩ ⟨.str "10", none, none, "", none⟩ < 0 ∧
    byIdAscending ⟨.str "abc", none, none, "", none⟩ ⟨.str "9", none, none, "", none⟩ = 1 := by
  refine ⟨(byIdAscending_sort_ascending.1
      ⟨.str "3", none, none, "", none⟩ ⟨.str "10", none, none, "", none⟩
      3 10 (by decide) (by decide) (by decide)).1, ?_⟩
  exact (byIdAscending_sort_ascending.2.1
      ⟨.str "9", none, none, "", none⟩ ⟨.str "abc", none, none, "", none⟩
      9 (by decide) (by decide)).2

/-- C3 counterexample: the ids "02" and "2" differ as strings, yet the
comparator returns 0 for them — the numeric collation tie-break ignores
leading zeros, so `byIdAscending` is not injective-on-ids as claimed. -/
theorem byIdAscending_ties_distinct_ids :
    byIdAscending ⟨.str "02", none, none, "", none⟩ ⟨.str "2", none, none, "", none⟩ = 0 ∧
    jsToString (JSValue.str "02") ≠ jsToString (JSValue.str "2") := by
  constructor
  · decide
  · decide

/-- C3 (amended): `byIdAscending` is a deterministic total preorder — it is
reflexive-zero, sign-antisymmetric and transitive (both strictly and
non-strictly) — but it is not a total order on distinct ids: it can return
0 for entries whose ids differ as strings (e.g. "02" and "2"). -/
theorem byIdAscending_total_preorder (a b c : Entry) :
    byIdAscending a a = 0 ∧
    byIdAscending b a = - byIdAscending a b ∧
    (byIdAscending a b < 0 → byIdAscending b c < 0 → byIdAscending a c < 0) ∧
    (byIdAscending a b ≤ 0 → byIdAscending b c ≤ 0 → byIdAscending a c ≤ 0) :=
  ⟨byIdAscending_self a, byIdAscending_swap a b,
   byIdAscending_lt_trans a b c, byIdAscending_le_trans a b c⟩

/-- C3 witness: the transitivity clauses applied at concrete entries. -/
theorem byIdAscending_total_preorder_witness :
    byIdAscending ⟨.str "1", none, none, "", none⟩ ⟨.str "3", none, none, "", none⟩ < 0 := by
  exact (byIdAscending_total_preorder
      ⟨.str "1", none, none, "", none⟩ ⟨.str "2", none, none, "", none⟩
      ⟨.str "3", none, none, "", none⟩).2.2.1 (by decide) (by decide)

/-!
Hash Sync (`setHash` / `getHashComic`).  A JS string is modelled by its
UTF-8 byte sequence (a `List Nat` of values `< 256`); `encodeURIComponent`
percent-encodes every byte outside its unreserved set, and
`URLSearchParams` decoding splits on `&`, splits each pair at the first
`=`, turns `+` into a space and decodes `%XX` triples.  UTF-8 encoding is
injective, so a byte-level round trip is a string round trip.  The `URL`
hash setter leaves all characters `encodeURIComponent` can emit untouched
(they are outside the WHATWG fragment percent-encode set).
-/

/-- The characters `encodeURIComponent` leaves unescaped:
`A-Z a-z 0-9 - _ . ! ~ * ' ( )` (as byte values). -/
def isUnreserved (b : Nat) : Bool :=
  decide ((65 ≤ b ∧ b ≤ 90) ∨ (97 ≤ b ∧ b ≤ 122) ∨ (48 ≤ b ∧ b ≤ 57) ∨
    b = 45 ∨ b = 95 ∨ b = 46 ∨ b = 33 ∨ b = 126 ∨ b = 42 ∨ b = 39 ∨ b = 40 ∨ b = 41)

/-- Uppercase hex digit for a value below 16, as `encodeURIComponent` emits. -/
def hexDigitChar (n : Nat) : Char :=
  if n < 10 then Char.ofNat (48 + n) else Char.ofNat (55 + n)

/-- Percent-encoding of one byte. -/
def percentEncodeByte (b : Nat) : List Char :=
  if isUnreserved b then [Char.ofNat b]
  else ['%', hexDigitChar (b / 16), hexDigitChar (b % 16)]

/-- `encodeURIComponent` over the UTF-8 bytes of its argument. -/
def encodeURIComponentBytes : List Nat → List Char
  | [] => []
  | b :: bs => percentEncodeByte b ++ encodeURIComponentBytes bs

/-- `setHash` writes the fragment `c=<encodeURIComponent(id)>`; the value
of `location.hash` afterwards (leading `#` included). -/
def locationHashAfterSet (idBytes : List Nat) : List Char :=
  '#' :: 'c' :: '=' :: encodeURIComponentBytes idBytes

/-- Value of a hex digit character, upper or lower case. -/
def hexVal (c : Char) : Option Nat :=
  if 48 ≤ c.toNat ∧ c.toNat ≤ 57 then some (c.toNat - 48)
  else if 65 ≤ c.toNat ∧ c.toNat ≤ 70 then some (c.toNat - 55)
  else if 97 ≤ c.toNat ∧ c.toNat ≤ 102 then some (c.toNat - 87)
  else none

/-- `application/x-www-form-urlencoded` decoding of a component, as
`URLSearchParams` performs it: `+` becomes a space, `%XX` with two hex
digits becomes the byte `XX`, an invalid `%` stands for itself, any other
character stands for its own bytes (ASCII range suffices here, since the
encoder only emits ASCII). -/
def percentDecode : List Char → List Nat
  | [] => []
  | '%' :: c1 :: c2 :: rest2 =>
    match hexVal c1, hexVal c2 with
    | some h, some l => (16 * h + l) :: percentDecode rest2
    | _, _ => 37 :: percentDecode (c1 :: c2 :: rest2)
  | '%' :: rest => 37 :: percentDecode rest
  | c :: rest =>
    if c = '+' then 32 :: percentDecode rest
    else c.toNat :: percentDecode rest

/-- Split a character list on a separator (WHATWG "split on 0x26"). -/
def splitOnChar (sep : Char) : List Char → List (List Char)
  | [] => [[]]
  | c :: rest =>
    match splitOnChar sep rest with
    | [] => if c = sep then [[], []] else [[c]]
    | h :: t => if c = sep then [] :: h :: t else (c :: h) :: t

/-- Decoded (name, value) of one `URLSearchParams` pair: split at the
first `=`, decode both sides. -/
def parsePair (seg : List Char) : List Nat × List Nat :=
  (percentDecode (seg.takeWhile (fun c => c ≠ '=')),
   percentDecode ((seg.dropWhile (fun c => c ≠ '=')).drop 1))

/-- `new URLSearchParams(h).get(key)`: first pair whose decoded name is
`key`, skipping empty segments. -/
def getParam (key : List Nat) (h : List Char) : Option (List Nat) :=
  (((splitOnChar '&' h).filter (fun seg => seg ≠ [])).map parsePair).findSome?
    (fun p => if p.1 = key then some p.2 else none)

/-- `getHashComic`: strip one leading `#` from `location.hash`, then read
parameter `c`. -/
def getHashComic (hash : List Char) : Option (List Nat) :=
  getParam [99] (match hash with | '#' :: r => r | r => r)

example : percentDecode "a%2Bb+".data = [97, 43, 98, 32] := by decide
example : encodeURIComponentBytes [97, 43, 32] = "a%2B%20".data := by decide

set_option maxRecDepth 4096 in
theorem unreserved_char_facts : ∀ b : Nat, b < 256 → isUnreserved b = true →
    (Char.ofNat b).toNat = b ∧ Char.ofNat b ≠ '%' ∧ Char.ofNat b ≠ '+' ∧
    Char.ofNat b ≠ '&' := by decide

theorem hexVal_hexDigitChar : ∀ n : Nat, n < 16 → hexVal (hexDigitChar n) = some n := by
  decide

theorem hexDigitChar_ne_amp : ∀ n : Nat, n < 16 → hexDigitChar n ≠ '&' := by decide

theorem percentDecode_cons_other (c : Char) (rest : List Char)
    (h1 : c ≠ '%') (h2 : c ≠ '+') :
    percentDecode (c :: rest) = c.toNat :: percentDecode rest := by
  rw [percentDecode.eq_def]
  split
  · simp_all
  · simp_all
  · simp_all
  · rename_i c2 rest2 heq
    rw [List.cons.injEq] at heq
    rw [if_neg (heq.1 ▸ h2), heq.1, heq.2]

theorem percentDecode_escape (b : Nat) (rest : List Char) (hb : b < 256) :
    percentDecode ('%' :: hexDigitChar (b / 16) :: hexDigitChar (b % 16) :: rest) =
      b :: percentDecode rest := by
  have h1 : hexVal (hexDigitChar (b / 16)) = some (b / 16) :=
    hexVal_hexDigitChar _ (by omega)
  have h2 : hexVal (hexDigitChar (b % 16)) = some (b % 16) :=
    hexVal_hexDigitChar _ (by omega)
  rw [percentDecode, h1, h2]
  have hval : 16 * (b / 16) + b % 16 = b := by omega
  exact congrArg (fun x => x :: percentDecode rest) hval

theorem percentDecode_encode : ∀ bs : List Nat, (∀ b ∈ bs, b < 256) →
    percentDecode (encodeURIComponentBytes bs) = bs
  | [], _ => rfl
  | b :: bs, h => by
    have hb : b < 256 := h b (List.mem_cons_self b bs)
    have ih := percentDecode_encode bs (fun x hx => h x (List.mem_cons_of_mem b hx))
    show percentDecode (percentEncodeByte b ++ encodeURIComponentBytes bs) = b :: bs
    unfold percentEncodeByte
    by_cases hu : isUnreserved b = true
    · obtain ⟨ht, hp, hplus, _⟩ := unreserved_char_facts b hb hu
      rw [if_pos hu]
      show percentDecode (Char.ofNat b :: encodeURIComponentBytes bs) = b :: bs
      rw [percentDecode_cons_other _ _ hp hplus, ht, ih]
    · rw [if_neg hu]
      show percentDecode ('%' :: hexDigitChar (b / 16) :: hexDigitChar (b % 16) ::
        encodeURIComponentBytes bs) = b :: bs
      rw [percentDecode_escape b _ hb, ih]

theorem encode_chars_ne_amp : ∀ bs : List Nat, (∀ b ∈ bs, b < 256) →
    ∀ c ∈ encodeURIComponentBytes bs, c ≠ '&'
  | [], _, c, hc => by simp [encodeURIComponentBytes] at hc
  | b :: bs, h, c, hc => by
    have hb : b < 256 := h b (List.mem_cons_self b bs)
    have ih := encode_chars_ne_amp bs (fun x hx => h x (List.mem_cons_of_mem b hx))
    rw [show encodeURIComponentBytes (b :: bs) =
      percentEncodeByte b ++ encodeURIComponentBytes bs from rfl] at hc
    rcases List.mem_append.mp hc with hc1 | hc2
    · unfold percentEncodeByte at hc1
      by_cases hu : isUnreserved b = true
      · rw [if_pos hu] at hc1
        rw [List.mem_singleton.mp hc1]
        exact (unreserved_char_facts b hb hu).2.2.2
      · rw [if_neg hu] at hc1
        simp only [List.mem_cons, List.not_mem_nil, or_false] at hc1
        rcases hc1 with rfl | rfl | rfl
        · decide
        · exact hexDigitChar_ne_amp _ (by omega)
        · exact hexDigitChar_ne_amp _ (by omega)
    · exact ih c hc2

theorem splitOnChar_of_no_sep (sep : Char) :
    ∀ l : List Char, (∀ c ∈ l, c ≠ sep) → splitOnChar sep l = [l]
  | [], _ => rfl
  | c :: rest, h => by
    have ih := splitOnChar_of_no_sep sep rest (fun x hx => h x (List.mem_cons_of_mem c hx))
    simp only [splitOnChar, ih]
    rw [if_neg (h c (List.mem_cons_self c rest))]

/-- C2: writing the fragment for an id with `setHash` and reading it back
with `getHashComic` returns the same id (byte-for-byte, hence the same
string), for every id — including ids containing `+`, spaces and `&`. -/
theorem setHash_getHashComic_roundtrip (bs : List Nat) (h : ∀ b ∈ bs, b < 256) :
    getHashComic (locationHashAfterSet bs) = some bs := by
  unfold locationHashAfterSet getHashComic
  show getParam [99] ('c' :: '=' :: encodeURIComponentBytes bs) = some bs
  unfold getParam
  have hns : ∀ c ∈ 'c' :: '=' :: encodeURIComponentBytes bs, c ≠ '&' := by
    intro c hc
    rcases List.mem_cons.mp hc with rfl | hc2
    · decide
    · rcases List.mem_cons.mp hc2 with rfl | hc3
      · decide
      · exact encode_chars_ne_amp bs h c hc3
  rw [splitOnChar_of_no_sep '&' _ hns]
  show some (percentDecode (encodeURIComponentBytes bs)) = some bs
  rw [percentDecode_encode bs h]

/-- C2 witness: the round trip at the UTF-8 bytes of the id "a+b &c". -/
theorem setHash_getHashComic_roundtrip_witness :
    (∀ b ∈ [97, 43, 98, 32, 38, 99], b < 256) ∧
    getHashComic (locationHashAfterSet [97, 43, 98, 32, 38, 99]) =
      some [97, 43, 98, 32, 38, 99] :=
  ⟨by decide, setHash_getHashComic_roundtrip [97, 43, 98, 32, 38, 99] (by decide)⟩

/-!
Navigation state.  `STATE = [data, comics, currentIndex]` plus the DOM
facts the claims are about: whether the reader dialog is open, the current
location fragment (recorded as the id string passed to `setHash`), and the
disclaimer gate (`open` attribute and the persisted acceptance flag).
`currentIndex` is a JS number, kept as `Int` so that out-of-range
arithmetic such as `comics[-1]` behaves as in JS.
-/

structure AppState where
  comics : List Entry
  currentIndex : Int
  readerOpen : Bool
  hash : Option String
  disclaimerOpen : Bool
  accepted : Bool
deriving DecidableEq, Repr

/-- JS array indexing `l[i]` with a number index: `undefined` (`none`)
outside `[0, length)`. -/
def jsGet (l : List Entry) (i : Int) : Option Entry :=
  if h : 0 ≤ i ∧ i.toNat < l.length then some (l.get ⟨i.toNat, h.2⟩) else none

/-- `openComicById(id)`: find the first entry with `String(c.id) ===
String(id)`; if none, return silently; otherwise set the cursor, render,
write the hash and open the reader. -/
def openComicById (id : JSValue) (s : AppState) : AppState :=
  match s.comics.findIdx? (fun c => jsToString c.id = jsToString id) with
  | none => s
  | some idx =>
    { s with currentIndex := (idx : Int), readerOpen := true,
             hash := some (jsToString id) }

/-- Enabled state of the "prev" control after `renderReader`:
`!!STATE.comics[STATE.currentIndex - 1]`. -/
def prevEnabled (s : AppState) : Bool :=
  (jsGet s.comics (s.currentIndex - 1)).isSome

/-- Enabled state of the "next" control after `renderReader`:
`!!STATE.comics[STATE.currentIndex + 1]`. -/
def nextEnabled (s : AppState) : Bool :=
  (jsGet s.comics (s.currentIndex + 1)).isSome

/-- Enabled state of the "latest" control after `renderReader`:
`!!STATE.comics[STATE.comics.length - 1]`. -/
def latestEnabled (s : AppState) : Bool :=
  (jsGet s.comics ((s.comics.length : Int) - 1)).isSome

/-- The exposed navigation operations: open a tile / the latest box
(`openComicById`), the three reader buttons (whose `onclick` is `null`
when the control is disabled, hence the guards), the "start" quick action
(wired only for a non-empty collection), and the deep-link open from the
location fragment. -/
inductive NavOp where
  | openById (id : JSValue)
  | prevClick
  | nextClick
  | latestClick
  | startClick
  | hashOpen (cid : String)

/-- One step of the navigation state machine, as the handlers installed by
`renderReader` and `init` perform it. -/
def navStep (s : AppState) : NavOp → AppState
  | .openById id => openComicById id s
  | .prevClick =>
    match jsGet s.comics (s.currentIndex - 1) with
    | none => s
    | some prev =>
      { s with currentIndex := s.currentIndex - 1,
               hash := some (jsToString prev.id) }
  | .nextClick =>
    match jsGet s.comics (s.currentIndex + 1) with
    | none => s
    | some next =>
      { s with currentIndex := s.currentIndex + 1,
               hash := some (jsToString next.id) }
  | .latestClick =>
    match jsGet s.comics ((s.comics.length : Int) - 1) with
    | none => s
    | some latest =>
      { s with currentIndex := (s.comics.length : Int) - 1,
               hash := some (jsToString latest.id) }
  | .startClick =>
    match s.comics with
    | [] => s
    | c :: _ => openComicById c.id s
  | .hashOpen cid => openComicById (.str cid) s

/-- Cursor invariant of a non-empty collection. -/
def cursorInRange (s : AppState) : Prop :=
  s.comics ≠ [] → 0 ≤ s.currentIndex ∧ s.currentIndex < (s.comics.length : Int)

theorem jsGet_eq_some_bounds (l : List Entry) (i : Int) (e : Entry)
    (h : jsGet l i = some e) : 0 ≤ i ∧ i.toNat < l.length := by
  unfold jsGet at h
  by_cases hc : 0 ≤ i ∧ i.toNat < l.length
  · exact hc
  · rw [dif_neg hc] at h
    exact Option.noConfusion h

/-- C4: `openComicById` finds the first entry whose id, coerced to string,
equals the requested id's string, sets the cursor there and opens the
reader; when no entry matches it returns the state completely unchanged
(cursor, fragment, reader) and raises nothing. -/
theorem openComicById_spec :
    (∀ (id : JSValue) (s : AppState),
      (∀ c ∈ s.comics, jsToString c.id ≠ jsToString id) →
      openComicById id s = s) ∧
    (∀ (id : JSValue) (s : AppState) (i : Nat) (hi : i < s.comics.length),
      jsToString (s.comics.get ⟨i, hi⟩).id = jsToString id →
      (∀ (j : Nat) (hj : j < i),
        jsToString (s.comics.get ⟨j, by omega⟩).id ≠ jsToString id) →
      (openComicById id s).currentIndex = (i : Int) ∧
      (openComicById id s).readerOpen = true ∧
      (openComicById id s).comics = s.comics) := by
  constructor
  · intro id s h
    unfold openComicById
    rw [List.findIdx?_eq_none_iff.mpr (fun c hc => decide_eq_false (h c hc))]
  · intro id s i hi hmatch hfirst
    have hf : s.comics.findIdx? (fun c => jsToString c.id = jsToString id) = some i := by
      apply List.findIdx?_eq_some_iff_getElem.mpr
      refine ⟨hi, ?_, ?_⟩
      · simpa using hmatch
      · intro j hji
        simpa using hfirst j hji
    unfold openComicById
    rw [hf]
    exact ⟨rfl, rfl, rfl⟩

/-- C4 witness: a hit on the second entry and the shape of the result. -/
theorem openComicById_spec_witness :
    (openComicById (.str "2")
      { comics := [⟨.str "1", none, none, "", none⟩, ⟨.str "2", none, none, "", none⟩],
        currentIndex := 0, readerOpen := false, hash := none,
        disclaimerOpen := false, accepted := true }).currentIndex = (1 : Int) := by
  exact (openComicById_spec.2 (.str "2")
    { comics := [⟨.str "1", none, none, "", none⟩, ⟨.str "2", none, none, "", none⟩],
      currentIndex := 0, readerOpen := false, hash := none,
      disclaimerOpen := false, accepted := true }
    1 (by decide) (by decide) (by decide)).1

/-- C5: with a non-empty collection and an in-range cursor, after
`renderReader` the "prev" control is disabled exactly at index 0, the
"next" control is disabled exactly at the last index, and the "latest"
control is enabled. -/
theorem renderReader_button_flags (s : AppState)
    (h0 : 0 ≤ s.currentIndex) (hlt : s.currentIndex < (s.comics.length : Int)) :
    (prevEnabled s = false ↔ s.currentIndex = 0) ∧
    (nextEnabled s = false ↔ s.currentIndex = (s.comics.length : Int) - 1) ∧
    latestEnabled s = true := by
  refine ⟨?_, ?_, ?_⟩
  · unfold prevEnabled jsGet
    split_ifs with h
    · simp only [Option.isSome_some]
      constructor
      · intro hfalse; cases hfalse
      · intro hzero; exfalso; omega
    · simp only [Option.isSome_none]
      constructor
      · intro _; omega
      · intro _; trivial
  · unfold nextEnabled jsGet
    split_ifs with h
    · simp only [Option.isSome_some]
      constructor
      · intro hfalse; cases hfalse
      · intro hlast; exfalso; omega
    · simp only [Option.isSome_none]
      constructor
      · intro _; omega
      · intro _; trivial
  · unfold latestEnabled jsGet
    rw [dif_pos (by omega)]
    rfl

/-- C5 witness: cursor at index 0 of a two-entry collection. -/
theorem renderReader_button_flags_witness :
    prevEnabled
      { comics := [⟨.str "1", none, none, "", none⟩, ⟨.str "2", none, none, "", none⟩],
        currentIndex := 0, readerOpen := true, hash := none,
        disclaimerOpen := false, accepted := true } = false ∧
    nextEnabled
      { comics := [⟨.str "1", none, none, "", none⟩, ⟨.str "2", none, none, "", none⟩],
        currentIndex := 0, readerOpen := true, hash := none,
        disclaimerOpen := false, accepted := true } ≠ false := by
  constructor
  · exact (renderReader_button_flags _ (by decide) (by decide)).1.mpr rfl
  · intro hcontra
    have h := (renderReader_button_flags
      { comics := [⟨.str "1", none, none, "", none⟩, ⟨.str "2", none, none, "", none⟩],
        currentIndex := 0, readerOpen := true, hash := none,
        disclaimerOpen := false, accepted := true } (by decide) (by decide)).2.1.mp hcontra
    simp at h

theorem openComicById_preserves_range (id : JSValue) (s : AppState)
    (h : cursorInRange s) : cursorInRange (openComicById id s) := by
  cases hf : s.comics.findIdx? (fun c => jsToString c.id = jsToString id) with
  | none =>
    have heq : openComicById id s = s := by unfold openComicById; rw [hf]
    rw [heq]; exact h
  | some i =>
    have heq : openComicById id s =
        { s with currentIndex := (i : Int), readerOpen := true,
                 hash := some (jsToString id) } := by
      unfold openComicById; rw [hf]
    obtain ⟨hlen, _, _⟩ := List.findIdx?_eq_some_iff_getElem.mp hf
    rw [heq]
    intro _
    refine ⟨Int.ofNat_nonneg i, ?_⟩
    show (i : Int) < (s.comics.length : Int)
    exact_mod_cast hlen

/-- C6: every exposed navigation operation maps a state whose cursor is in
range `[0, length-1]` (for a non-empty collection) to a state whose cursor
is again in range, and hence so does every sequence of such operations. -/
theorem navStep_cursor_in_range :
    (∀ (s : AppState) (op : NavOp),
      cursorInRange s → cursorInRange (navStep s op)) ∧
    (∀ (s : AppState) (ops : List NavOp),
      cursorInRange s → cursorInRange (List.foldl navStep s ops)) := by
  have hstep : ∀ (s : AppState) (op : NavOp),
      cursorInRange s → cursorInRange (navStep s op) := by
    intro s op h
    cases op with
    | openById id => exact openComicById_preserves_range id s h
    | prevClick =>
      cases hg : jsGet s.comics (s.currentIndex - 1) with
      | none =>
        have heq : navStep s .prevClick = s := by unfold navStep; rw [hg]
        rw [heq]; exact h
      | some prev =>
        have heq : navStep s .prevClick =
            { s with currentIndex := s.currentIndex - 1,
                     hash := some (jsToString prev.id) } := by
          unfold navStep; rw [hg]
        obtain ⟨h0, hlt⟩ := jsGet_eq_some_bounds _ _ _ hg
        rw [heq]
        intro _
        refine ⟨h0, ?_⟩
        show s.currentIndex - 1 < (s.comics.length : Int)
        omega
    | nextClick =>
      cases hg : jsGet s.comics (s.currentIndex + 1) with
      | none =>
        have heq : navStep s .nextClick = s := by unfold navStep; rw [hg]
        rw [heq]; exact h
      | some next =>
        have heq : navStep s .nextClick =
            { s with currentIndex := s.currentIndex + 1,
                     hash := some (jsToString next.id) } := by
          unfold navStep; rw [hg]
        obtain ⟨h0, hlt⟩ := jsGet_eq_some_bounds _ _ _ hg
        rw [heq]
        intro _
        refine ⟨h0, ?_⟩
        show s.currentIndex + 1 < (s.comics.length : Int)
        omega
    | latestClick =>
      cases hg : jsGet s.comics ((s.comics.length : Int) - 1) with
      | none =>
        have heq : navStep s .latestClick = s := by unfold navStep; rw [hg]
        rw [heq]; exact h
      | some latest =>
        have heq : navStep s .latestClick =
            { s with currentIndex := (s.comics.length : Int) - 1,
                     hash := some (jsToString latest.id) } := by
          unfold navStep; rw [hg]
        obtain ⟨h0, hlt⟩ := jsGet_eq_some_bounds _ _ _ hg
        rw [heq]
        intro _
        refine ⟨h0, ?_⟩
        show (s.comics.length : Int) - 1 < (s.comics.length : Int)
        omega
    | startClick =>
      cases hc : s.comics with
      | nil =>
        have heq : navStep s .startClick = s := by unfold navStep; rw [hc]
        rw [heq]; exact h
      | cons c t =>
        have heq : navStep s .startClick = openComicById c.id s := by
          unfold navStep; rw [hc]
        rw [heq]
        exact openComicById_preserves_range c.id s h
    | hashOpen cid => exact openComicById_preserves_range (.str cid) s h
  refine ⟨hstep, ?_⟩
  intro s ops
  induction ops generalizing s with
  | nil => intro h; exact h
  | cons op rest ih =>
    intro h
    exact ih (navStep s op) (hstep s op h)

/-- C6 witness: one next-click from index 0 of a two-entry collection
keeps the cursor in range. -/
theorem navStep_cursor_in_range_witness :
    cursorInRange (navStep
      { comics := [⟨.str "1", none, none, "", none⟩, ⟨.str "2", none, none, "", none⟩],
        currentIndex := 0, readerOpen := true, hash := none,
        disclaimerOpen := false, accepted := true } .nextClick) := by
  exact navStep_cursor_in_range.1
    { comics := [⟨.str "1", none, none, "", none⟩, ⟨.str "2", none, none, "", none⟩],
      currentIndex := 0, readerOpen := true, hash := none,
      disclaimerOpen := false, accepted := true } .nextClick
    (fun _ => by constructor <;> decide)

/-- The disclaimer gate events wired by `init`: the global Escape handler,
a click on the dialog backdrop (explicitly a no-op), the accept button
(`acceptDisclaimer`), and the footer link that re-opens the dialog. -/
inductive GateEvent where
  | escapeKey
  | overlayClick
  | acceptClick
  | openLink
deriving DecidableEq

/-- Effect of one gate event: Escape returns early while the disclaimer is
open and otherwise closes the reader; the backdrop click does nothing;
accept persists the flag and closes the dialog; the link re-opens it. -/
def gateStep (s : AppState) : GateEvent → AppState
  | .escapeKey => if s.disclaimerOpen then s else { s with readerOpen := false }
  | .overlayClick => s
  | .acceptClick => { s with accepted := true, disclaimerOpen := false }
  | .openLink => { s with disclaimerOpen := true }

/-- C10: while the disclaimer is open, Escape and backdrop clicks are
no-ops (full state equality, so reader state and cursor are untouched and
the dialog stays open); only the accept event moves the gate to
Acknowledged; and no navigation operation ever changes the gate. -/
theorem disclaimer_gate_blocking (s : AppState) (h : s.disclaimerOpen = true) :
    gateStep s .escapeKey = s ∧
    gateStep s .overlayClick = s ∧
    (gateStep s .acceptClick).accepted = true ∧
    (gateStep s .acceptClick).disclaimerOpen = false ∧
    (∀ e : GateEvent, e ≠ .acceptClick → (gateStep s e).accepted = s.accepted) ∧
    (∀ e : GateEvent, e ≠ .acceptClick → (gateStep s e).disclaimerOpen = true) ∧
    (∀ op : NavOp, (navStep s op).accepted = s.accepted ∧
      (navStep s op).disclaimerOpen = s.disclaimerOpen) := by
  have hnav : ∀ op : NavOp, (navStep s op).accepted = s.accepted ∧
      (navStep s op).disclaimerOpen = s.disclaimerOpen := by
    intro op
    constructor <;>
      (cases op <;> unfold navStep openComicById <;> (repeat' split) <;> rfl)
  refine ⟨by simp [gateStep, h], rfl, rfl, rfl, ?_, ?_, hnav⟩
  · intro e he
    cases e with
    | escapeKey => simp [gateStep, h]
    | overlayClick => rfl
    | acceptClick => exact absurd rfl he
    | openLink => rfl
  · intro e he
    cases e with
    | escapeKey => simp [gateStep, h]
    | overlayClick => exact h
    | acceptClick => exact absurd rfl he
    | openLink => rfl

/-- C10 witness: a concrete open-disclaimer state is left unchanged by
Escape. -/
theorem disclaimer_gate_blocking_witness :
    gateStep
      { comics := [], currentIndex := 0, readerOpen := false, hash := none,
        disclaimerOpen := true, accepted := false } .escapeKey =
    { comics := [], currentIndex := 0, readerOpen := false, hash := none,
      disclaimerOpen := true, accepted := false } := by
  exact (disclaimer_gate_blocking
    { comics := [], currentIndex := 0, readerOpen := false, hash := none,
      disclaimerOpen := true, accepted := false } rfl).1

/-!
HTML escaping and grid rendering.  `escapeHtml` is modelled on character
lists; `Char.ofNat 34` and `Char.ofNat 39` are the double quote and the
apostrophe.  The JS `(s || '')` prelude is modelled by `escapeHtmlJS`,
whose argument is a `JSValue`: a falsy value is replaced by the empty
string, a truthy non-string reaches `.replace` and throws a TypeError
(modelled as `Except.error`).
-/

/-- Replacement for one character: the five entities of `escapeHtml`,
everything else unchanged. -/
def escChar (c : Char) : List Char :=
  if c = '&' then "&amp;".data
  else if c = '<' then "&lt;".data
  else if c = '>' then "&gt;".data
  else if c = Char.ofNat 34 then "&quot;".data
  else if c = Char.ofNat 39 then "&#39;".data
  else [c]

/-- `escapeHtml` on a character list. -/
def escapeHtmlL : List Char → List Char
  | [] => []
  | c :: cs => escChar c ++ escapeHtmlL cs

/-- `escapeHtml` on a string argument. -/
def escapeHtml (s : String) : String := String.mk (escapeHtmlL s.data)

/-- `escapeHtml` as called with an arbitrary JS value: `(s || '')` yields
the empty string for falsy values; `.replace` on a truthy non-string
throws. -/
def escapeHtmlJS (v : JSValue) : Except Unit String :=
  match (if jsTruthy v then v else .str "") with
  | .str s => .ok (escapeHtml s)
  | _ => .error ()

/-- The shape of strings in which every ampersand is part of one of the
five entities `escapeHtml` emits: such a string is a concatenation of
entity blocks and single non-ampersand characters. -/
inductive AmpClean : List Char → Prop
  | nil : AmpClean []
  | amp (r : List Char) : AmpClean r → AmpClean ("&amp;".data ++ r)
  | lt (r : List Char) : AmpClean r → AmpClean ("&lt;".data ++ r)
  | gt (r : List Char) : AmpClean r → AmpClean ("&gt;".data ++ r)
  | quot (r : List Char) : AmpClean r → AmpClean ("&quot;".data ++ r)
  | apos (r : List Char) : AmpClean r → AmpClean ("&#39;".data ++ r)
  | other (c : Char) (r : List Char) : c ≠ '&' → AmpClean r → AmpClean (c :: r)

theorem ampClean_escChar (c : Char) (rest : List Char) (h : AmpClean rest) :
    AmpClean (escChar c ++ rest) := by
  unfold escChar
  split_ifs with h1 h2 h3 h4 h5
  · exact AmpClean.amp rest h
  · exact AmpClean.lt rest h
  · exact AmpClean.gt rest h
  · exact AmpClean.quot rest h
  · exact AmpClean.apos rest h
  · exact AmpClean.other c rest h1 h

theorem escChar_no_raw (c : Char) :
    ∀ d ∈ escChar c, d ≠ '<' ∧ d ≠ '>' ∧ d ≠ Char.ofNat 34 ∧ d ≠ Char.ofNat 39 := by
  unfold escChar
  split_ifs with h1 h2 h3 h4 h5
  · decide
  · decide
  · decide
  · decide
  · decide
  · intro d hd
    rw [List.mem_singleton.mp hd]
    exact ⟨h2, h3, h4, h5⟩


/-- ASCII whitespace, for the model of `String.prototype.trim` (the JS
method also strips some rarer Unicode whitespace, not exercised here). -/
def isJsWs (c : Char) : Bool :=
  decide (c = ' ' ∨ c = Char.ofNat 9 ∨ c = Char.ofNat 10 ∨ c = Char.ofNat 13)

/-- Model of `String.prototype.trim`. -/
def jsTrim (s : String) : String :=
  String.mk (((s.data.dropWhile isJsWs).reverse.dropWhile isJsWs).reverse)

/-- Model of `Array.prototype.join(' • ')` on a list of strings. -/
def joinBits : List String → String
  | [] => ""
  | [b] => b
  | b :: rest => b ++ " • " ++ joinBits rest

/-- `displayTitle` from app.js: a title that trims to something truthy is
used verbatim, otherwise the numbered placeholder. -/
def displayTitle (c : Entry) : String :=
  match c.title with
  | some t => if jsTrim t ≠ "" then t else "Page #" ++ jsTrim (idString c.id)
  | none => "Page #" ++ jsTrim (idString c.id)

/-- `displayMeta` from app.js: date (when truthy) and `#id` (when the id
is neither null nor undefined), joined by a bullet. -/
def displayMeta (c : Entry) : String :=
  joinBits
    ((match c.date with
      | some d => if d ≠ "" then [d] else []
      | none => []) ++
     (match c.id with
      | .null => []
      | .undef => []
      | v => ["#" ++ jsToString v]))

/-- `c.alt || title` in the grid template. -/
def altOrTitle (c : Entry) (title : String) : String :=
  match c.alt with
  | some a => if a ≠ "" then a else title
  | none => title

/-- One grid tile of `renderGrid`: the template literal with every
interpolation escaped; `escapeHtml(c.id)` is the only call that can
receive a non-string and throw. -/
def renderGridCell (c : Entry) : Except Unit String := do
  let idEsc ← escapeHtmlJS c.id
  let title := displayTitle c
  let meta := displayMeta c
  pure ("\n      <button class=\"tile\" type=\"button\" data-open=\"" ++ idEsc ++
    "\" aria-label=\"Open " ++ escapeHtml title ++
    "\">\n        <img class=\"thumb\" src=\"" ++ escapeHtml c.image ++
    "\" alt=\"" ++ escapeHtml (altOrTitle c title) ++
    "\" loading=\"lazy\">\n        <h3>" ++ escapeHtml title ++
    "</h3>\n        " ++
    (if meta ≠ "" then "<div class=\"muted small\">" ++ escapeHtml meta ++ "</div>"
     else "") ++
    "\n      </button>\n    ")

/-- Substring occurrence test used to state the "<script>" scenario. -/
def hasPrefixL : List Char → List Char → Bool
  | [], _ => true
  | _ :: _, [] => false
  | a :: as, b :: bs => a = b && hasPrefixL as bs

/-- Does `needle` occur as a contiguous substring of the second list? -/
def hasSubL (needle : List Char) : List Char → Bool
  | [] => needle.isEmpty
  | c :: t => hasPrefixL needle (c :: t) || hasSubL needle t

set_option maxRecDepth 100000 in
/-- C7: `escapeHtml` output never contains a raw `<`, `>`, `"` or `'`,
and every `&` in it starts one of the five entities it emits; the grid
tile for an entry titled `<script>` contains the escaped text
`&lt;script&gt;` and not the raw substring `<script>`. -/
theorem escapeHtml_sanitises (s : List Char) :
    (∀ c ∈ escapeHtmlL s,
      c ≠ '<' ∧ c ≠ '>' ∧ c ≠ Char.ofNat 34 ∧ c ≠ Char.ofNat 39) ∧
    AmpClean (escapeHtmlL s) ∧
    escapeHtml "<script>" = "&lt;script&gt;" ∧
    ((renderGridCell ⟨.str "p1", some "<script>", none, "x.png", none⟩).toOption.map
      (fun m => hasSubL "<script>".data m.data) = some false) ∧
    ((renderGridCell ⟨.str "p1", some "<script>", none, "x.png", none⟩).toOption.map
      (fun m => hasSubL "&lt;script&gt;".data m.data) = some true) := by
  refine ⟨?_, ?_, by decide, by decide, by decide⟩
  · induction s with
    | nil => intro c hc; cases hc
    | cons a t ih =>
      intro c hc
      rcases List.mem_append.mp hc with h1 | h2
      · exact escChar_no_raw a c h1
      · exact ih c h2
  · induction s with
    | nil => exact AmpClean.nil
    | cons a t ih => exact ampClean_escChar a (escapeHtmlL t) ih

/-- C7 witness: membership clause at the escaped "<script>". -/
theorem escapeHtml_sanitises_witness :
    '&' ∈ escapeHtmlL "<script>".data ∧
    ('&' ≠ '<' ∧ '&' ≠ '>' ∧ '&' ≠ Char.ofNat 34 ∧ '&' ≠ Char.ofNat 39) :=
  ⟨by decide, (escapeHtml_sanitises "<script>".data).1 '&' (by decide)⟩

/-- C8: `escapeHtml` throws (a TypeError, from calling `.replace` on a
non-string) for every truthy non-string argument; in particular
`renderGrid` is not total over manifests with non-zero numeric ids, since
it calls `escapeHtml(c.id)`. -/
theorem escapeHtml_throws_on_truthy_nonstring :
    (∀ v : JSValue, jsTruthy v = true → (∀ s : String, v ≠ .str s) →
      escapeHtmlJS v = .error ()) ∧
    (∀ (c : Entry) (n : Int), n ≠ 0 → c.id = .num n →
      renderGridCell c = .error ()) := by
  have h1 : ∀ v : JSValue, jsTruthy v = true → (∀ s : String, v ≠ .str s) →
      escapeHtmlJS v = .error () := by
    intro v ht hns
    unfold escapeHtmlJS
    rw [if_pos ht]
    cases v with
    | str s => exact absurd rfl (hns s)
    | num n => rfl
    | bool b => rfl
    | null => exact absurd ht (by decide)
    | undef => exact absurd ht (by decide)
  refine ⟨h1, ?_⟩
  intro c n hn hid
  have he : escapeHtmlJS c.id = .error () := by
    rw [hid]
    exact h1 (.num n) (by simpa [jsTruthy] using hn) (fun s h => JSValue.noConfusion h)
  unfold renderGridCell
  rw [he]
  rfl

/-- C8 witness: the numeric id 5 throws, both directly and through the
grid tile renderer. -/
theorem escapeHtml_throws_on_truthy_nonstring_witness :
    escapeHtmlJS (.num 5) = .error () ∧
    renderGridCell ⟨.num 5, none, none, "a.png", none⟩ = .error () :=
  ⟨escapeHtml_throws_on_truthy_nonstring.1 (.num 5) (by decide)
     (fun s h => JSValue.noConfusion h),
   escapeHtml_throws_on_truthy_nonstring.2 ⟨.num 5, none, none, "a.png", none⟩ 5
     (by decide) rfl⟩

/-!
Data loader.  A fetch outcome is `ok : Bool` (response status) plus the
body parsed as JSON (`none` when `res.json()` rejects).  `initModel`
records the user-visible effects `init` produces, in source order: the
header texts, the empty-state note, the "latest" pane, the archive grid,
and the single static diagnostic written by the `catch` block.  Manifest
entries are modelled up to the data model of the spec (title/date/alt, when
present, are strings); ids of any JSON type and non-object entries are
covered.
-/

/-- A parsed JSON value (`res.json()` result). -/
inductive Json where
  | null
  | bool (b : Bool)
  | num (n : Int)
  | str (s : String)
  | arr (xs : List Json)
  | obj (fields : List (String × Json))

/-- Field lookup on a (deduplicated) JSON object association list. -/
def lookupField : List (String × Json) → String → Option Json
  | [], _ => none
  | (k, v) :: rest, key => if k = key then some v else lookupField rest key

/-- JS property access `j[key]` on a JSON value: `undefined` (`none`)
unless `j` is an object with the field. -/
def jsonGet (j : Json) (key : String) : Option Json :=
  match j with
  | .obj fields => lookupField fields key
  | _ => none

/-- JS truthiness of a JSON value ([] and \x7b\x7d are truthy). -/
def jsonFalsy : Json → Bool
  | .null => true
  | .bool b => !b
  | .num n => n = 0
  | .str s => s = ""
  | .arr _ => false
  | .obj _ => false

/-- `loadData`: rejects when the response is not ok, or when the body is
not valid JSON (`res.json()` throws). -/
def loadData (ok : Bool) (body : Option Json) : Except String Json :=
  if !ok then .error "Could not load comics.json"
  else match body with
    | none => .error "SyntaxError: unexpected token"
    | some j => .ok j

/-- `[...(data.comics || [])]`: property access throws on a null document;
a falsy or absent `comics` yields `[]`; spreading an array yields its
elements, spreading a (non-empty) string its characters; spreading any
other value throws a TypeError. -/
def getComicsList (data : Json) : Except Unit (List Json) :=
  match data with
  | .null => .error ()
  | _ =>
    match jsonGet data "comics" with
    | none => .ok []
    | some c =>
      if jsonFalsy c then .ok []
      else match c with
        | .arr l => .ok l
        | .str s => .ok (s.data.map (fun ch => Json.str (String.mk [ch])))
        | _ => .error ()

/-- Does `escapeHtml(e.id)` throw for this manifest entry, i.e. is the
`id` property a truthy non-string (arrays and objects included)? -/
def jsonIdTruthyNonString (e : Json) : Bool :=
  match jsonGet e "id" with
  | none => false
  | some (.str _) => false
  | some .null => false
  | some (.bool b) => b
  | some (.num n) => decide (n ≠ 0)
  | some (.arr _) => true
  | some (.obj _) => true

/-- Is the entry the JSON null value (whose property access throws)? -/
def isNullJson : Json → Bool
  | .null => true
  | _ => false

/-- The effects of `init` the claims talk about. -/
structure InitEffects where
  headerSet : Bool
  emptyNote : Bool
  latestRendered : Bool
  gridRendered : Bool
  errorMsg : Option String
deriving DecidableEq, Repr

/-- The one static diagnostic of the `catch` block. -/
def loadFailureMessage : String :=
  "Could not load site data. Check comics.json and image paths."

/-- The effect record of a failure that happens before any rendering. -/
def failEffects : InitEffects :=
  { headerSet := false, emptyNote := false, latestRendered := false,
    gridRendered := false, errorMsg := some loadFailureMessage }

/-- `init`, as a function from the fetch outcome to its effects, following
source order: load; spread-and-sort (a null entry among two or more
entries makes the comparator throw before the header is set; a single
null entry makes `renderLatest` throw after it); header; empty check;
latest pane; grid (which throws on a truthy non-string id after the
latest pane is already rendered). -/
def initModel (ok : Bool) (body : Option Json) : InitEffects :=
  match loadData ok body with
  | .error _ => failEffects
  | .ok data =>
    match getComicsList data with
    | .error _ => failEffects
    | .ok comicsJson =>
      if 2 ≤ comicsJson.length ∧ comicsJson.any isNullJson then failEffects
      else if comicsJson.any isNullJson then
        { headerSet := true, emptyNote := false, latestRendered := false,
          gridRendered := false, errorMsg := some loadFailureMessage }
      else if comicsJson.isEmpty then
        { headerSet := true, emptyNote := true, latestRendered := false,
          gridRendered := false, errorMsg := none }
      else if comicsJson.any jsonIdTruthyNonString then
        { headerSet := true, emptyNote := false, latestRendered := true,
          gridRendered := false, errorMsg := some loadFailureMessage }
      else
        { headerSet := true, emptyNote := false, latestRendered := true,
          gridRendered := true, errorMsg := none }

/-- Written from the WORDS of the spec (sections 3 and 6), for comparison
with `loadData`: a manifest of the expected structure is a document with a
`comics` sequence of entry records, each with an `id` (string or number)
and an `image` path. -/
def specEntryOk : Json → Bool
  | .obj fields =>
    (match lookupField fields "id" with
     | some (.str _) => true
     | some (.num _) => true
     | _ => false) &&
    (match lookupField fields "image" with
     | some (.str _) => true
     | _ => false)
  | _ => false

/-- Written from the WORDS of the spec: the whole-document check of the
expected structure. -/
def specExpectedStructure : Json → Bool
  | .obj fields =>
    (match lookupField fields "comics" with
     | some (.arr entries) => entries.all specEntryOk
     | _ => false)
  | _ => false

/-- C9 counterexample: a successful response whose body is valid JSON but
not of the expected structure (the number 42): the load does not fail,
initialization proceeds to the empty-state, and no diagnostic is
surfaced — contradicting the claimed "fails iff ... cannot be parsed as
the expected structure". -/
theorem loadData_succeeds_on_unexpected_structure :
    loadData true (some (Json.num 42)) = .ok (Json.num 42) ∧
    specExpectedStructure (Json.num 42) = false ∧
    (initModel true (some (Json.num 42))).errorMsg = none ∧
    (initModel true (some (Json.num 42))).emptyNote = true := by
  refine ⟨rfl, rfl, rfl, rfl⟩

/-- C9 (amended): the data load fails iff the response is not successful
or the body is not valid JSON (a well-formed-JSON body of the wrong shape
does not raise); and whenever the load fails, `init` performs no
rendering at all and surfaces exactly the one static diagnostic. -/
theorem loadData_failure_characterisation :
    (∀ (ok : Bool) (body : Option Json),
      (∃ e, loadData ok body = .error e) ↔ (ok = false ∨ body = none)) ∧
    (∀ (ok : Bool) (body : Option Json) (e : String),
      loadData ok body = .error e → initModel ok body = failEffects) := by
  constructor
  · intro ok body
    constructor
    · intro ⟨e, he⟩
      unfold loadData at he
      cases ok with
      | false => exact Or.inl rfl
      | true =>
        cases body with
        | none => exact Or.inr rfl
        | some j => simp at he
    · intro h
      rcases h with rfl | rfl
      · exact ⟨"Could not load comics.json", rfl⟩
      · unfold loadData
        cases ok with
        | false => exact ⟨"Could not load comics.json", rfl⟩
        | true => exact ⟨"SyntaxError: unexpected token", rfl⟩
  · intro ok body e he
    unfold initModel
    rw [he]

/-- C9 witness: a failed response yields the single-diagnostic,
no-rendering effect record. -/
theorem loadData_failure_characterisation_witness :
    (∃ e, loadData false (some (Json.num 1)) = .error e) ∧
    initModel false (some (Json.num 1)) = failEffects :=
  ⟨(loadData_failure_characterisation.1 false (some (Json.num 1))).mpr (Or.inl rfl),
   loadData_failure_characterisation.2 false (some (Json.num 1))
     "Could not load comics.json" rfl⟩
